import Mathlib

/-!
# Verification of the fund-valuation server (`server.go`)

Shallow embedding of the valuation engine of the Go HTTP server:

* the two ledger tables `trade_histories` and `reference_prices` become
  lists of records in a `Ledger`;
* the grouped SQL queries of `getAssetsHandler` / `getAssetsByYearHandler`
  (an inner join of trades with same-date reference prices, grouped by
  fund, resp. by `(YEAR(trade_date), fund_id)`, with
  `HAVING total_quantity > 0`) become list functions;
* the `ORDER BY price_date DESC LIMIT 1` current-price query becomes a
  fold selecting a maximal-date element;
* the Go accumulation loops (skipping funds whose current price is
  unavailable, summing in exact arithmetic, flooring once at the end)
  become folds over the query rows;
* database access that can fail is made explicit: the initial grouped
  query is an `Except Unit` value and the per-fund price query returns a
  `PriceResult` which can be `dbError` (the `err != nil` branch of
  `db.QueryRow(...).Scan`).

`DECIMAL` / monetary arithmetic is modelled exactly in `ℚ`; a calendar
date is encoded as the natural number `year*10000 + month*100 + day`, so
that `≤` on codes is date order and `YEAR(d)` is `d / 10000`.
-/

/-- Calendar dates, encoded as `year*10000 + month*100 + day`
(e.g. `20240110` for 2024-01-10); `≤` on the code is date order. -/
abbrev Date := Nat

/-- `YEAR(d)` of SQL on the date encoding. -/
def Date.yearOf (d : Date) : Nat := d / 10000

/-- `UNIT_PER_PRICE_BASE = 10000.0`: units per quoted price. -/
def UNIT_PER_PRICE_BASE : ℚ := 10000

/-- A row of `trade_histories`. -/
structure TradeHistory where
  user_id : String
  fund_id : Int
  quantity : Int
  trade_date : Date
deriving DecidableEq, Repr

/-- A row of `reference_prices` (`DECIMAL(10,2)` modelled exactly in `ℚ`). -/
structure ReferencePrice where
  fund_id : Int
  price : ℚ
  price_date : Date
deriving DecidableEq, Repr

/-- The two ledger tables. -/
structure Ledger where
  trades : List TradeHistory
  prices : List ReferencePrice
deriving Repr

/-- The `PRIMARY KEY (fund_id, price_date)` invariant of `reference_prices`:
no two distinct rows share a fund and a date. -/
def PricesUnique (L : Ledger) : Prop :=
  L.prices.Pairwise fun p q => ¬(p.fund_id = q.fund_id ∧ p.price_date = q.price_date)

/-- One row of the grouped query of `getAssetsHandler`
(`GROUP BY th.fund_id`). -/
structure PosRow where
  fund_id : Int
  total_quantity : Int
  total_buy_cost : ℚ
deriving DecidableEq, Repr

/-- One row of the grouped query of `getAssetsByYearHandler`
(`GROUP BY trade_year, th.fund_id`). -/
structure YearPosRow where
  trade_year : Nat
  fund_id : Int
  total_quantity : Int
  total_buy_cost : ℚ
deriving DecidableEq, Repr

/-- The `JOIN ... ON` condition: `th.fund_id = rp_buy.fund_id AND
th.trade_date = rp_buy.price_date`. -/
def matchesTrade (th : TradeHistory) (rp : ReferencePrice) : Bool :=
  rp.fund_id == th.fund_id && rp.price_date == th.trade_date

/-- The reference-price rows joined to one trade. -/
def matchPrices (L : Ledger) (th : TradeHistory) : List ReferencePrice :=
  L.prices.filter (matchesTrade th)

/-- The `FROM ... JOIN ... WHERE` part shared by both grouped queries:
trades of `userID` dated at-or-before `asOf`, inner-joined to the
reference price with the same fund and the exact trade date. -/
def joinedRows (L : Ledger) (userID : String) (asOf : Date) :
    List (TradeHistory × ReferencePrice) :=
  (L.trades.filter fun th =>
      th.user_id == userID && decide (th.trade_date ≤ asOf)).flatMap fun th =>
    (matchPrices L th).map fun rp => (th, rp)

/-- `SUM(th.quantity)` over a list of joined rows. -/
def sumQuantity (rows : List (TradeHistory × ReferencePrice)) : Int :=
  (rows.map fun r => r.1.quantity).sum

/-- `SUM(th.quantity * rp_buy.price / UNIT_PER_PRICE_BASE)` over a list of
joined rows. -/
def sumBuyCost (rows : List (TradeHistory × ReferencePrice)) : ℚ :=
  (rows.map fun r => (r.1.quantity : ℚ) * r.2.price / UNIT_PER_PRICE_BASE).sum

/-- The grouped query of `getAssetsHandler`: per-fund totals over the
join, keeping only groups with `total_quantity > 0` (the `HAVING`). -/
def positionRows (L : Ledger) (userID : String) (asOf : Date) : List PosRow :=
  let rows := joinedRows L userID asOf
  ((rows.map fun r => r.1.fund_id).dedup).filterMap fun f =>
    let frows := rows.filter fun r => r.1.fund_id == f
    let tq := sumQuantity frows
    if 0 < tq then some ⟨f, tq, sumBuyCost frows⟩ else none

/-- The grouped query of `getAssetsByYearHandler`: totals per
`(YEAR(trade_date), fund_id)` over the same join, keeping only groups
with `total_quantity > 0`. -/
def yearPositionRows (L : Ledger) (userID : String) (asOf : Date) :
    List YearPosRow :=
  let rows := joinedRows L userID asOf
  ((rows.map fun r => (r.1.trade_date.yearOf, r.1.fund_id)).dedup).filterMap
    fun k =>
      let frows := rows.filter fun r =>
        r.1.trade_date.yearOf == k.1 && r.1.fund_id == k.2
      let tq := sumQuantity frows
      if 0 < tq then some ⟨k.1, k.2, tq, sumBuyCost frows⟩ else none

/-- Selection step realising `ORDER BY price_date DESC LIMIT 1` as a scan:
keep the row with the later `price_date`. -/
def latestStep : Option ReferencePrice → ReferencePrice → Option ReferencePrice
  | none, rp => some rp
  | some best, rp =>
      if best.price_date < rp.price_date then some rp else some best

/-- The `SELECT price ... WHERE fund_id = ? AND price_date <= ? ORDER BY
price_date DESC LIMIT 1` query: among the prices of `fundID` dated
at-or-before `asOf`, a row with maximal `price_date` (unique under
`PricesUnique`), or `none` when there is no such row (`sql.ErrNoRows`). -/
def latestPriceRow (L : Ledger) (fundID : Int) (asOf : Date) :
    Option ReferencePrice :=
  (L.prices.filter fun rp =>
      rp.fund_id == fundID && decide (rp.price_date ≤ asOf)).foldl latestStep none

/-- Outcome of the per-fund current-price query inside the handler loops:
a price, `sql.ErrNoRows`, or any other database error. -/
inductive PriceResult where
  | ok (price : ℚ)
  | noRows
  | dbError
deriving DecidableEq, Repr

/-- The per-fund current-price query answered from the ledger itself
(no database failure). -/
def ledgerLookup (L : Ledger) (asOf : Date) (fundID : Int) : PriceResult :=
  match latestPriceRow L fundID asOf with
  | some rp => .ok rp.price
  | none => .noRows

/-- Whether the handler loops use the row (`.ok`) or `continue` past it. -/
def PriceResult.isHit : PriceResult → Bool
  | .ok _ => true
  | .noRows => false
  | .dbError => false

/-- The body of `getAssetsHandler`'s response (date field omitted:
it echoes the request). -/
structure AssetData where
  current_value : Int
  current_pl : Int
deriving DecidableEq, Repr

/-- The accumulation loop of `getAssetsHandler`: starting from
`(totalCurrentValue, totalBuyAmount) = (0, 0)`, each position whose
current price resolves adds `price * quantity / UNIT_PER_PRICE_BASE` to
the value and its `total_buy_cost` to the cost; `sql.ErrNoRows` and any
other lookup error both `continue`. -/
def assetsLoop (lookup : Int → PriceResult) (rows : List PosRow) : ℚ × ℚ :=
  rows.foldl
    (fun acc pos =>
      match lookup pos.fund_id with
      | .ok p =>
          (acc.1 + p * (pos.total_quantity : ℚ) / UNIT_PER_PRICE_BASE,
           acc.2 + pos.total_buy_cost)
      | .noRows => acc
      | .dbError => acc)
    (0, 0)

/-- End of `getAssetsHandler`: floor the summed value, and floor the
difference of the two sums (`math.Floor`, round toward `-∞`). -/
def getAssetsCore (rows : List PosRow) (lookup : Int → PriceResult) : AssetData :=
  let t := assetsLoop lookup rows
  ⟨(t.1).floor, (t.1 - t.2).floor⟩

/-- `getAssetsHandler` with database access made explicit: a failing
grouped query is answered with HTTP 500 (`Except.error`) and nothing
else; otherwise the loop runs and an `AssetData` is returned. -/
def getAssetsHandler (queryPositions : Except Unit (List PosRow))
    (lookup : Int → PriceResult) : Except Unit AssetData :=
  match queryPositions with
  | .error _ => .error ()
  | .ok rows => .ok (getAssetsCore rows lookup)

/-- `GET /{user_id}/assets` answered entirely from a ledger. -/
def getAssets (L : Ledger) (userID : String) (targetDate : Date) : AssetData :=
  getAssetsCore (positionRows L userID targetDate) (ledgerLookup L targetDate)

/-- `getTradesCountHandler`'s query:
`SELECT COUNT(*) FROM trade_histories WHERE user_id = ?`. -/
def getTradesCount (L : Ledger) (userID : String) : Nat :=
  (L.trades.filter fun th => th.user_id == userID).length

/-- The per-year accumulator of `getAssetsByYearHandler`
(`type yearlyFundData struct`). -/
structure yearlyFundData where
  CurrentValueSum : ℚ
  BuyAmountSum : ℚ
deriving DecidableEq, Repr

/-- `yearlySummary[tradeYear]` update: Go map indexing yields the zero
value for an absent key, the sums are bumped, and the entry is stored
back; modelled on an association list with in-place update. -/
def updateYear (m : List (Nat × yearlyFundData)) (y : Nat) (v c : ℚ) :
    List (Nat × yearlyFundData) :=
  match m with
  | [] => [(y, ⟨v, c⟩)]
  | (y', d) :: rest =>
      if y' = y then (y', ⟨d.CurrentValueSum + v, d.BuyAmountSum + c⟩) :: rest
      else (y', d) :: updateYear rest y v c

/-- Reading the summary map: the entry stored for year `y`, if any. -/
def lookupYear (m : List (Nat × yearlyFundData)) (y : Nat) :
    Option yearlyFundData :=
  match m with
  | [] => none
  | (k, d) :: rest => if k = y then some d else lookupYear rest y

/-- The row loop of `getAssetsByYearHandler`: rows whose fund's current
price resolves contribute `price * quantity / UNIT_PER_PRICE_BASE` and
their buy cost to their year's entry; rows hitting `sql.ErrNoRows` or a
lookup error `continue` (the per-request price cache only avoids repeat
queries and is semantically transparent for a deterministic lookup). -/
def byYearLoop (lookup : Int → PriceResult) (rows : List YearPosRow) :
    List (Nat × yearlyFundData) :=
  rows.foldl
    (fun m row =>
      match lookup row.fund_id with
      | .ok p =>
          updateYear m row.trade_year
            (p * (row.total_quantity : ℚ) / UNIT_PER_PRICE_BASE)
            row.total_buy_cost
      | .noRows => m
      | .dbError => m)
    []

/-- One entry of the `assets` array of `/{user_id}/assets/byYear`. -/
structure YearlyAsset where
  year : Nat
  current_value : Int
  current_pl : Int
deriving DecidableEq, Repr

/-- Conversion of the summary map to response entries: each year's value
sum is floored, and the difference of its two sums is floored. -/
def summaryToAssets (m : List (Nat × yearlyFundData)) : List YearlyAsset :=
  m.map fun e =>
    ⟨e.1, (e.2.CurrentValueSum).floor,
      (e.2.CurrentValueSum - e.2.BuyAmountSum).floor⟩

/-- Insertion step of the final `sort.Slice(..., Year_i > Year_j)`. -/
def insertDescByYear (a : YearlyAsset) : List YearlyAsset → List YearlyAsset
  | [] => [a]
  | b :: rest =>
      if b.year < a.year then a :: b :: rest else b :: insertDescByYear a rest

/-- The final sort of `getAssetsByYearHandler`: descending by `Year`. -/
def sortDescByYear : List YearlyAsset → List YearlyAsset
  | [] => []
  | a :: rest => insertDescByYear a (sortDescByYear rest)

/-- The `assets` array built by `getAssetsByYearHandler` from the grouped
rows and a current-price lookup. -/
def byYearAssets (rows : List YearPosRow) (lookup : Int → PriceResult) :
    List YearlyAsset :=
  sortDescByYear (summaryToAssets (byYearLoop lookup rows))

/-- `getAssetsByYearHandler` with the grouped query's failure explicit. -/
def getAssetsByYearHandler (queryRows : Except Unit (List YearPosRow))
    (lookup : Int → PriceResult) : Except Unit (List YearlyAsset) :=
  match queryRows with
  | .error _ => .error ()
  | .ok rows => .ok (byYearAssets rows lookup)

/-- `GET /{user_id}/assets/byYear` answered entirely from a ledger,
as-of `today`. -/
def getAssetsByYear (L : Ledger) (userID : String) (today : Date) :
    List YearlyAsset :=
  byYearAssets (yearPositionRows L userID today) (ledgerLookup L today)

/-! ### Spec-side definitions

The following definitions follow the specification's words rather than the
SQL, to be compared with the join-based aggregates above. -/

/-- Spec side: the trade has a reference price whose `price_date` exactly
equals its `trade_date`, for the same fund. -/
def hasSameDatePrice (L : Ledger) (t : TradeHistory) : Bool :=
  L.prices.any (matchesTrade t)

/-- Spec side: the price on the trade's exact date (`0` when there is
none; such trades are filtered out before this is summed). -/
def priceOn (L : Ledger) (t : TradeHistory) : ℚ :=
  ((L.prices.find? (matchesTrade t)).map fun rp => rp.price).getD 0

/-- Spec side: the user's trades of fund `f` dated at-or-before `asOf`
that have a same-date reference price. -/
def pricedTrades (L : Ledger) (userID : String) (asOf : Date) (f : Int) :
    List TradeHistory :=
  L.trades.filter fun t =>
    t.user_id == userID && decide (t.trade_date ≤ asOf) && t.fund_id == f &&
      hasSameDatePrice L t

/-- Spec side, from §8 of the spec: `total_quantity` for a fund is the sum
of quantities of trades at-or-before the target date that have a matching
reference price on their exact trade date. -/
def specTotalQuantity (L : Ledger) (userID : String) (asOf : Date) (f : Int) :
    Int :=
  ((pricedTrades L userID asOf f).map fun t => t.quantity).sum

/-- Spec side: `total_buy_cost` is the sum, over the same trades, of
`quantity × price-on-trade-date ÷ UNIT_BASE`. -/
def specTotalBuyCost (L : Ledger) (userID : String) (asOf : Date) (f : Int) :
    ℚ :=
  ((pricedTrades L userID asOf f).map fun t =>
    (t.quantity : ℚ) * priceOn L t / UNIT_PER_PRICE_BASE).sum

/-! ### Per-row contribution functions used to state the loop sums -/

/-- The value a position adds to `totalCurrentValue` (`0` when its fund's
current price does not resolve). -/
def posValue (lookup : Int → PriceResult) (pos : PosRow) : ℚ :=
  match lookup pos.fund_id with
  | .ok p => p * (pos.total_quantity : ℚ) / UNIT_PER_PRICE_BASE
  | .noRows => 0
  | .dbError => 0

/-- The cost a position adds to `totalBuyAmount` (`0` when its fund's
current price does not resolve). -/
def posCost (lookup : Int → PriceResult) (pos : PosRow) : ℚ :=
  match lookup pos.fund_id with
  | .ok _ => pos.total_buy_cost
  | .noRows => 0
  | .dbError => 0

/-- The value a `(year, fund)` group adds to its year's `CurrentValueSum`. -/
def rowValue (lookup : Int → PriceResult) (r : YearPosRow) : ℚ :=
  match lookup r.fund_id with
  | .ok p => p * (r.total_quantity : ℚ) / UNIT_PER_PRICE_BASE
  | .noRows => 0
  | .dbError => 0

/-- The cost a `(year, fund)` group adds to its year's `BuyAmountSum`. -/
def rowCost (lookup : Int → PriceResult) (r : YearPosRow) : ℚ :=
  match lookup r.fund_id with
  | .ok _ => r.total_buy_cost
  | .noRows => 0
  | .dbError => 0

/-- The purchase cohort of year `y`: that year's `(year, fund)` groups
whose fund's current price resolves. -/
def yearCohort (lookup : Int → PriceResult) (rows : List YearPosRow) (y : Nat) :
    List YearPosRow :=
  rows.filter fun r => r.trade_year == y && (lookup r.fund_id).isHit

/-- The exact current value of year `y`'s cohort. -/
def yearCohortValue (lookup : Int → PriceResult) (rows : List YearPosRow)
    (y : Nat) : ℚ :=
  ((yearCohort lookup rows y).map (rowValue lookup)).sum

/-- The exact buy cost of year `y`'s cohort. -/
def yearCohortCost (lookup : Int → PriceResult) (rows : List YearPosRow)
    (y : Nat) : ℚ :=
  ((yearCohort lookup rows y).map (rowCost lookup)).sum

/-- Demotion of a per-fund database error to `sql.ErrNoRows`: both are
handled by the same `continue`. -/
def PriceResult.demoted : PriceResult → PriceResult
  | .ok p => .ok p
  | .noRows => .noRows
  | .dbError => .noRows

/-! ## Helper lemmas -/

theorem rat_floor_eq_floor (q : ℚ) : q.floor = ⌊q⌋ := by
  rw [Rat.floor_def', Rat.floor_def]

theorem assetsLoop_foldl (lookup : Int → PriceResult) (rows : List PosRow) :
    ∀ acc : ℚ × ℚ,
      rows.foldl
        (fun acc pos =>
          match lookup pos.fund_id with
          | .ok p =>
              (acc.1 + p * (pos.total_quantity : ℚ) / UNIT_PER_PRICE_BASE,
               acc.2 + pos.total_buy_cost)
          | .noRows => acc
          | .dbError => acc) acc =
      (acc.1 + ((rows.map (posValue lookup)).sum),
       acc.2 + ((rows.map (posCost lookup)).sum)) := by
  induction rows with
  | nil => intro acc; simp
  | cons r rs ih =>
      intro acc
      simp only [List.foldl_cons, List.map_cons, List.sum_cons]
      rcases h : lookup r.fund_id with p | _ | _ <;>
        simp only [h, ih, posValue, posCost, Prod.mk.injEq] <;>
        constructor <;> ring

theorem assetsLoop_eq (lookup : Int → PriceResult) (rows : List PosRow) :
    assetsLoop lookup rows =
      ((rows.map (posValue lookup)).sum, (rows.map (posCost lookup)).sum) := by
  rw [assetsLoop, assetsLoop_foldl]
  simp

theorem sum_map_filter_of_zero {α : Type} (p : α → Bool) (f : α → ℚ)
    (l : List α) (h : ∀ a ∈ l, p a = false → f a = 0) :
    ((l.filter p).map f).sum = (l.map f).sum := by
  induction l with
  | nil => simp
  | cons a as ih =>
      have ih' := ih fun b hb hbf => h b (List.mem_cons_of_mem a hb) hbf
      cases hp : p a with
      | true => simp [List.filter_cons, hp, ih']
      | false =>
          simp [List.filter_cons, hp, ih',
            h a (List.mem_cons_self a as) hp]

theorem ledgerLookup_isHit (L : Ledger) (d : Date) (f : Int) :
    (ledgerLookup L d f).isHit = (latestPriceRow L f d).isSome := by
  cases h : latestPriceRow L f d <;> simp [ledgerLookup, h, PriceResult.isHit]

/-! ## Claims -/

/-- **C2**: in single-date valuation the response is obtained by summing
the exact per-fund contributions first and flooring once per total:
`current_value = ⌊Σ price·quantity/UNIT_BASE⌋` over the included funds and
`current_pl = ⌊(unfloored value sum) − (buy cost sum)⌋`, with floor
rounding toward `-∞`; concretely a profit/loss of `-0.3` is returned
as `-1`, not `0`. -/
theorem assets_sum_then_floor_once :
    (∀ (rows : List PosRow) (lookup : Int → PriceResult),
      getAssetsCore rows lookup =
        ⟨⌊(rows.map (posValue lookup)).sum⌋,
         ⌊(rows.map (posValue lookup)).sum - (rows.map (posCost lookup)).sum⌋⟩)
    ∧ getAssetsCore [⟨1, 1, 13/10⟩] (fun _ => PriceResult.ok 10000) =
        ⟨1, -1⟩ := by
  constructor
  · intro rows lookup
    rw [getAssetsCore, assetsLoop_eq]
    simp [rat_floor_eq_floor]
  · rw [getAssetsCore, assetsLoop_eq]
    norm_num [posValue, posCost, rat_floor_eq_floor, UNIT_PER_PRICE_BASE]

/-- **C4**: in single-date valuation a fund whose current price resolves
to `NoPriceAvailable` is skipped entirely and the request still succeeds:
the response equals the one computed over only the funds whose price
resolves, so value and buy cost are summed over exactly the same set of
funds. -/
theorem assets_skip_unpriced_consistently :
    ∀ (L : Ledger) (u : String) (d : Date),
      getAssets L u d =
        getAssetsCore
          ((positionRows L u d).filter fun r =>
            (latestPriceRow L r.fund_id d).isSome)
          (ledgerLookup L d)
      ∧ getAssetsHandler (.ok (positionRows L u d)) (ledgerLookup L d) =
          .ok (getAssets L u d) := by
  intro L u d
  constructor
  · rw [getAssets, getAssetsCore, getAssetsCore, assetsLoop_eq, assetsLoop_eq]
    rw [sum_map_filter_of_zero _ _ _ ?hv, sum_map_filter_of_zero _ _ _ ?hc]
    case hv =>
      intro r _ hr
      cases h : latestPriceRow L r.fund_id d with
      | some rp => rw [h] at hr; simp at hr
      | none => simp [posValue, ledgerLookup, h]
    case hc =>
      intro r _ hr
      cases h : latestPriceRow L r.fund_id d with
      | some rp => rw [h] at hr; simp at hr
      | none => simp [posCost, ledgerLookup, h]
  · rfl

/-- **C9**: for a fixed set of per-fund position rows and a fixed price
lookup, the single-date valuation is independent of the iteration order
over the per-fund position map: any permutation of the rows yields the
identical response, so the response is a deterministic function of the
ledger contents, user and date. -/
theorem assets_iteration_order_irrelevant :
    ∀ (rows rows' : List PosRow) (lookup : Int → PriceResult),
      rows.Perm rows' → getAssetsCore rows lookup = getAssetsCore rows' lookup := by
  intro rows rows' lookup h
  rw [getAssetsCore, getAssetsCore, assetsLoop_eq, assetsLoop_eq,
    (h.map (posValue lookup)).sum_eq, (h.map (posCost lookup)).sum_eq]

/-- Witness for `assets_iteration_order_irrelevant` at a concrete
two-row permutation. -/
theorem assets_iteration_order_irrelevant_witness :
    getAssetsCore [⟨1, 5, 200⟩, ⟨2, 7, 300⟩]
        (fun f => if f == 1 then .ok 100 else .noRows) =
      getAssetsCore [⟨2, 7, 300⟩, ⟨1, 5, 200⟩]
        (fun f => if f == 1 then .ok 100 else .noRows) :=
  assets_iteration_order_irrelevant _ _ _ (by decide)

theorem posValue_demoted (lookup : Int → PriceResult) :
    posValue (fun f => (lookup f).demoted) = posValue lookup := by
  funext pos
  cases h : lookup pos.fund_id <;> simp [posValue, PriceResult.demoted, h]

theorem posCost_demoted (lookup : Int → PriceResult) :
    posCost (fun f => (lookup f).demoted) = posCost lookup := by
  funext pos
  cases h : lookup pos.fund_id <;> simp [posCost, PriceResult.demoted, h]

/-- **C5** (counterexample): a ledger-store failure during a per-fund
current-price lookup does not abort the request: with the price query
failing for fund 2 (`dbError`, not `ErrNoRows`), the handler still
answers `200 OK` with a valuation computed from fund 1 alone — a partial
result rather than an internal server error. -/
theorem store_failure_mid_request_counterexample :
    (fun f => if f == (1 : Int) then PriceResult.ok 10000 else .dbError) 2
        = .dbError
    ∧ getAssetsHandler (.ok [⟨1, 5, 200⟩, ⟨2, 7, 300⟩])
        (fun f => if f == (1 : Int) then PriceResult.ok 10000 else .dbError) =
      .ok ⟨5, -195⟩ := by
  refine ⟨rfl, ?_⟩
  show Except.ok (getAssetsCore _ _) = _
  rw [getAssetsCore, assetsLoop_eq]
  norm_num [posValue, posCost, rat_floor_eq_floor, UNIT_PER_PRICE_BASE]

/-- **C5** (amended): only a failure of the initial grouped positions
query aborts the whole request with an internal error (and then nothing
is returned); a failure of a per-fund current-price lookup instead skips
that fund exactly as if its price were `NoPriceAvailable`, and a
valuation over the remaining funds is returned. -/
theorem store_failure_handling :
    (∀ lookup, getAssetsHandler (.error ()) lookup = .error ())
    ∧ (∀ (rows : List PosRow) (lookup : Int → PriceResult),
        getAssetsHandler (.ok rows) lookup = .ok (getAssetsCore rows lookup)
        ∧ getAssetsCore rows (fun f => (lookup f).demoted) =
            getAssetsCore rows lookup) := by
  refine ⟨fun lookup => rfl, fun rows lookup => ⟨rfl, ?_⟩⟩
  rw [getAssetsCore, getAssetsCore, assetsLoop_eq, assetsLoop_eq,
    posValue_demoted, posCost_demoted]

/-- **C7**: every row emitted by either grouped query has strictly
positive `total_quantity` (the `HAVING total_quantity > 0` clause), so a
fund — or, in `byYear`, a `(year, fund)` group — whose aggregated
quantity is not strictly positive never reaches the output of
`/{user_id}/assets` or `/{user_id}/assets/byYear`. -/
theorem having_positive_quantity :
    ∀ (L : Ledger) (u : String) (d : Date),
      ((positionRows L u d).all fun r => decide (0 < r.total_quantity)) = true
      ∧ ((yearPositionRows L u d).all fun r =>
          decide (0 < r.total_quantity)) = true := by
  intro L u d
  constructor
  · rw [List.all_eq_true]
    intro r hr
    simp only [positionRows, List.mem_filterMap] at hr
    obtain ⟨f, -, hf⟩ := hr
    split at hf
    next h => cases hf; exact decide_eq_true h
    next => exact absurd hf (by simp)
  · rw [List.all_eq_true]
    intro r hr
    simp only [yearPositionRows, List.mem_filterMap] at hr
    obtain ⟨k, -, hk⟩ := hr
    split at hk
    next h => cases hk; exact decide_eq_true h
    next => exact absurd hk (by simp)

theorem count_filter_map_user (l : List TradeHistory)
    (g : TradeHistory → TradeHistory) (hg : ∀ t, (g t).user_id = t.user_id)
    (u : String) :
    ((l.map g).filter fun t => t.user_id == u).length =
      (l.filter fun t => t.user_id == u).length := by
  induction l with
  | nil => rfl
  | cons t ts ih =>
      simp only [List.map_cons, List.filter_cons, hg t]
      cases h : (t.user_id == u) <;> simp [h, ih]

/-- **C8**: `/{user_id}/trades` returns the raw per-user row count: it
equals the number of trade rows with that `user_id`, is unchanged by any
remapping of the trades' dates (there is no date filter), is independent
of the prices table (no join), and counts two same-date trades as two
(no deduplication by date). -/
theorem trades_raw_count :
    ∀ (L : Ledger) (u : String),
      getTradesCount L u = (L.trades.filter fun t => t.user_id == u).length
      ∧ (∀ f : TradeHistory → Date,
          getTradesCount
              ⟨L.trades.map fun t => { t with trade_date := f t }, L.prices⟩ u
            = getTradesCount L u)
      ∧ (∀ P : List ReferencePrice,
          getTradesCount ⟨L.trades, P⟩ u = getTradesCount L u)
      ∧ getTradesCount
          ⟨[⟨"du", 1, 3, 20240101⟩, ⟨"du", 2, 4, 20240101⟩], []⟩ "du" = 2 := by
  intro L u
  refine ⟨rfl, ?_, fun P => rfl, by decide⟩
  intro f
  exact count_filter_map_user L.trades
    (fun t => { t with trade_date := f t }) (fun t => rfl) u

theorem latestStep_max (acc : Option ReferencePrice) (x : ReferencePrice) :
    ∃ m, latestStep acc x = some m ∧ x.price_date ≤ m.price_date ∧
      ∀ b, acc = some b → b.price_date ≤ m.price_date := by
  cases acc with
  | none => exact ⟨x, rfl, le_refl _, by simp⟩
  | some b =>
      by_cases hb : b.price_date < x.price_date
      · refine ⟨x, by simp [latestStep, hb], le_refl _, ?_⟩
        intro b' hb'
        cases hb'
        exact le_of_lt hb
      · refine ⟨b, by simp [latestStep, hb], le_of_not_lt hb, ?_⟩
        intro b' hb'
        cases hb'
        exact le_refl _

theorem foldl_latestStep_eq_none (l : List ReferencePrice) :
    ∀ acc, l.foldl latestStep acc = none ↔ acc = none ∧ l = [] := by
  induction l with
  | nil => intro acc; simp
  | cons x xs ih =>
      intro acc
      rw [List.foldl_cons, ih]
      obtain ⟨m, hm, -, -⟩ := latestStep_max acc x
      simp [hm]

theorem foldl_latestStep_mem (l : List ReferencePrice) :
    ∀ acc c, l.foldl latestStep acc = some c → acc = some c ∨ c ∈ l := by
  induction l with
  | nil => intro acc c h; exact Or.inl h
  | cons x xs ih =>
      intro acc c h
      rw [List.foldl_cons] at h
      rcases ih _ c h with h' | h'
      · cases acc with
        | none =>
            rw [show latestStep none x = some x from rfl] at h'
            cases h'
            exact Or.inr (List.mem_cons_self ..)
        | some b =>
            rw [show latestStep (some b) x =
                if b.price_date < x.price_date then some x else some b
              from rfl] at h'
            split at h'
            · cases h'; exact Or.inr (List.mem_cons_self ..)
            · exact Or.inl h'
      · exact Or.inr (List.mem_cons_of_mem _ h')

theorem foldl_latestStep_ge (l : List ReferencePrice) :
    ∀ acc c, l.foldl latestStep acc = some c →
      (∀ b, acc = some b → b.price_date ≤ c.price_date) ∧
      ∀ x ∈ l, x.price_date ≤ c.price_date := by
  induction l with
  | nil =>
      intro acc c h
      rw [List.foldl_nil] at h
      refine ⟨fun b hb => ?_, fun x hx => absurd hx (List.not_mem_nil x)⟩
      rw [h] at hb
      cases hb
      exact le_refl _
  | cons x xs ih =>
      intro acc c h
      rw [List.foldl_cons] at h
      obtain ⟨m, hm, hxm, hbm⟩ := latestStep_max acc x
      rw [hm] at h
      obtain ⟨h1, h2⟩ := ih _ c h
      have hmc : m.price_date ≤ c.price_date := h1 m rfl
      refine ⟨fun b hb => le_trans (hbm b hb) hmc, fun y hy => ?_⟩
      rcases List.mem_cons.mp hy with rfl | hy'
      · exact le_trans hxm hmc
      · exact h2 y hy'

/-- **C3**: the price resolver returns a reference price of the requested
fund dated at-or-before the as-of date that is at least as recent as every
other such price (never a price dated after the as-of date); when no
price of that fund is dated at-or-before the as-of date it yields
`NoPriceAvailable` (`noRows`), never a database error. -/
theorem price_resolver_latest_at_or_before :
    ∀ (L : Ledger) (f : Int) (asOf : Date),
      (∀ rp, latestPriceRow L f asOf = some rp →
        rp ∈ L.prices ∧ rp.fund_id = f ∧ rp.price_date ≤ asOf ∧
        ∀ q ∈ L.prices, q.fund_id = f → q.price_date ≤ asOf →
          q.price_date ≤ rp.price_date)
      ∧ (latestPriceRow L f asOf = none ↔
          ∀ q ∈ L.prices, q.fund_id = f → asOf < q.price_date)
      ∧ (∀ g, ledgerLookup L asOf g ≠ .dbError)
      ∧ (ledgerLookup L asOf f = .noRows ↔ latestPriceRow L f asOf = none) := by
  intro L f asOf
  refine ⟨?_, ?_, ?_, ?_⟩
  · intro rp h
    rcases foldl_latestStep_mem _ _ _ h with h' | h'
    · cases h'
    · rw [List.mem_filter] at h'
      obtain ⟨hmem, hcond⟩ := h'
      simp only [Bool.and_eq_true, beq_iff_eq, decide_eq_true_eq] at hcond
      refine ⟨hmem, hcond.1, hcond.2, ?_⟩
      intro q hq hqf hqd
      exact (foldl_latestStep_ge _ _ _ h).2 q
        (List.mem_filter.mpr ⟨hq, by simp [hqf, hqd]⟩)
  · rw [latestPriceRow, foldl_latestStep_eq_none]
    simp only [true_and, List.filter_eq_nil_iff, Bool.and_eq_true, beq_iff_eq,
      decide_eq_true_eq, not_and, not_le]
  · intro g
    cases h : latestPriceRow L g asOf <;> simp [ledgerLookup, h]
  · cases h : latestPriceRow L f asOf <;> simp [ledgerLookup, h]

/-- Witness for `price_resolver_latest_at_or_before`: on a ledger with
prices of fund 1 dated 2024-01-10, 2024-06-01 and 2025-01-01, resolving
at 2024-06-15 returns the 2024-06-01 row — a price of fund 1 dated
at-or-before the as-of date. -/
theorem price_resolver_latest_at_or_before_witness :
    (⟨1, 110, 20240601⟩ : ReferencePrice) ∈
      (⟨[], [⟨1, 100, 20240110⟩, ⟨1, 110, 20240601⟩, ⟨1, 120, 20250101⟩]⟩ :
        Ledger).prices
    ∧ (⟨1, 110, 20240601⟩ : ReferencePrice).fund_id = 1
    ∧ (⟨1, 110, 20240601⟩ : ReferencePrice).price_date ≤ 20240615 :=
  have h := (price_resolver_latest_at_or_before
    ⟨[], [⟨1, 100, 20240110⟩, ⟨1, 110, 20240601⟩, ⟨1, 120, 20250101⟩]⟩
    1 20240615).1 ⟨1, 110, 20240601⟩ rfl
  ⟨h.1, h.2.1, h.2.2.1⟩

theorem find_eq_head_filter {α : Type} (p : α → Bool) (l : List α) :
    l.find? p = (l.filter p).head? := by
  induction l with
  | nil => rfl
  | cons a as ih =>
      rw [List.find?_cons, List.filter_cons]
      cases h : p a
      · simp only [List.head?]
        exact ih
      · simp

theorem matchPrices_subsingleton (L : Ledger) (h : PricesUnique L)
    (th : TradeHistory) :
    matchPrices L th = [] ∨ ∃ rp, matchPrices L th = [rp] := by
  cases hm : matchPrices L th with
  | nil => exact Or.inl rfl
  | cons a l =>
      cases l with
      | nil => exact Or.inr ⟨a, rfl⟩
      | cons b l2 =>
          exfalso
          have hp := h.filter (matchesTrade th)
          rw [show L.prices.filter (matchesTrade th) = matchPrices L th
            from rfl, hm] at hp
          have hab := (List.pairwise_cons.mp hp).1 b (List.mem_cons_self ..)
          have ha : a ∈ matchPrices L th := hm ▸ List.mem_cons_self ..
          have hb : b ∈ matchPrices L th :=
            hm ▸ List.mem_cons_of_mem _ (List.mem_cons_self ..)
          have ha' := (List.mem_filter.mp ha).2
          have hb' := (List.mem_filter.mp hb).2
          simp only [matchesTrade, Bool.and_eq_true, beq_iff_eq] at ha' hb'
          exact hab ⟨ha'.1.trans hb'.1.symm, ha'.2.trans hb'.2.symm⟩

theorem hasSameDatePrice_eq_false (L : Ledger) (th : TradeHistory)
    (hm : matchPrices L th = []) : hasSameDatePrice L th = false := by
  cases hh : hasSameDatePrice L th with
  | false => rfl
  | true =>
      exfalso
      obtain ⟨rp, hrp, hmt⟩ := List.any_eq_true.mp hh
      have hin : rp ∈ matchPrices L th := List.mem_filter.mpr ⟨hrp, hmt⟩
      rw [hm] at hin
      exact absurd hin (List.not_mem_nil rp)

theorem hasSameDatePrice_eq_true (L : Ledger) (th : TradeHistory)
    (rp : ReferencePrice) (hm : matchPrices L th = [rp]) :
    hasSameDatePrice L th = true := by
  have hmem : rp ∈ matchPrices L th := hm ▸ List.mem_cons_self ..
  have h' := List.mem_filter.mp hmem
  exact List.any_eq_true.mpr ⟨rp, h'.1, h'.2⟩

theorem priceOn_eq (L : Ledger) (th : TradeHistory) (rp : ReferencePrice)
    (hm : matchPrices L th = [rp]) : priceOn L th = rp.price := by
  rw [priceOn, find_eq_head_filter,
    show L.prices.filter (matchesTrade th) = matchPrices L th from rfl, hm]
  rfl

theorem sumQuantity_append (a b : List (TradeHistory × ReferencePrice)) :
    sumQuantity (a ++ b) = sumQuantity a + sumQuantity b := by
  simp [sumQuantity]

theorem sumBuyCost_append (a b : List (TradeHistory × ReferencePrice)) :
    sumBuyCost (a ++ b) = sumBuyCost a + sumBuyCost b := by
  simp [sumBuyCost]

theorem join_sums (L : Ledger) (h : PricesUnique L) (f : Int) :
    ∀ ts : List TradeHistory,
      sumQuantity
          ((ts.flatMap fun th => (matchPrices L th).map fun rp => (th, rp)).filter
            fun r => r.1.fund_id == f)
        = ((ts.filter fun t => t.fund_id == f && hasSameDatePrice L t).map
            fun t => t.quantity).sum
      ∧ sumBuyCost
          ((ts.flatMap fun th => (matchPrices L th).map fun rp => (th, rp)).filter
            fun r => r.1.fund_id == f)
        = ((ts.filter fun t => t.fund_id == f && hasSameDatePrice L t).map
            fun t => (t.quantity : ℚ) * priceOn L t / UNIT_PER_PRICE_BASE).sum := by
  intro ts
  induction ts with
  | nil => simp [sumQuantity, sumBuyCost]
  | cons th ts ih =>
      rw [List.flatMap_cons, List.filter_append, List.filter_map,
        show ((fun (r : TradeHistory × ReferencePrice) => r.1.fund_id == f) ∘
          fun rp => (th, rp)) = fun _ => th.fund_id == f from rfl]
      cases hf : th.fund_id == f with
      | false =>
          simp only [hf, List.filter_cons]
          rw [show (List.filter (fun _ => false) (matchPrices L th)) = []
            from List.filter_eq_nil_iff.mpr (fun a _ => by simp)]
          simp only [Bool.false_and, List.map_nil, List.nil_append]
          exact ih
      | true =>
          simp only [hf, List.filter_true, List.filter_cons, Bool.true_and]
          rcases matchPrices_subsingleton L h th with hm | ⟨rp, hm⟩
          · have hno := hasSameDatePrice_eq_false L th hm
            rw [hm]
            simp only [List.map_nil, List.nil_append, hno]
            exact ih
          · have hyes := hasSameDatePrice_eq_true L th rp hm
            have hpo := priceOn_eq L th rp hm
            rw [hm]
            simp only [List.map_cons, List.map_nil, hyes]
            rw [List.singleton_append]
            constructor
            · rw [show ((th, rp) :: (ts.flatMap fun th =>
                  (matchPrices L th).map fun rp => (th, rp)).filter
                    (fun r => r.1.fund_id == f)) =
                [(th, rp)] ++ (ts.flatMap fun th =>
                  (matchPrices L th).map fun rp => (th, rp)).filter
                    (fun r => r.1.fund_id == f) from rfl, sumQuantity_append,
                ih.1]
              simp [sumQuantity]
            · rw [show ((th, rp) :: (ts.flatMap fun th =>
                  (matchPrices L th).map fun rp => (th, rp)).filter
                    (fun r => r.1.fund_id == f)) =
                [(th, rp)] ++ (ts.flatMap fun th =>
                  (matchPrices L th).map fun rp => (th, rp)).filter
                    (fun r => r.1.fund_id == f) from rfl, sumBuyCost_append,
                ih.2]
              simp [sumBuyCost, hpo]

/-- **C1**: for every user, fund and as-of date, the aggregated
`total_quantity` (and `total_buy_cost`) of a fund is the sum over exactly
the user's trades dated at-or-before the as-of date that have a reference
price of the same fund dated exactly at the trade date; a trade with no
same-date price is simply absent from the join — it contributes neither
quantity nor buy cost, and nothing is subtracted for it. Holds for the
per-fund join aggregates and for every emitted position row. -/
theorem position_aggregation_drops_unpriced :
    ∀ (L : Ledger) (u : String) (asOf : Date), PricesUnique L →
      (∀ f : Int,
        sumQuantity ((joinedRows L u asOf).filter fun r => r.1.fund_id == f)
          = specTotalQuantity L u asOf f
        ∧ sumBuyCost ((joinedRows L u asOf).filter fun r => r.1.fund_id == f)
          = specTotalBuyCost L u asOf f)
      ∧ ∀ pos ∈ positionRows L u asOf,
          pos.total_quantity = specTotalQuantity L u asOf pos.fund_id ∧
          pos.total_buy_cost = specTotalBuyCost L u asOf pos.fund_id := by
  intro L u asOf h
  have key : ∀ f : Int,
      sumQuantity ((joinedRows L u asOf).filter fun r => r.1.fund_id == f)
        = specTotalQuantity L u asOf f
      ∧ sumBuyCost ((joinedRows L u asOf).filter fun r => r.1.fund_id == f)
        = specTotalBuyCost L u asOf f := by
    intro f
    have hker := join_sums L h f
      (L.trades.filter fun th => th.user_id == u && decide (th.trade_date ≤ asOf))
    have hfilters :
        ((L.trades.filter fun th =>
            th.user_id == u && decide (th.trade_date ≤ asOf)).filter
          fun t => t.fund_id == f && hasSameDatePrice L t) =
        pricedTrades L u asOf f := by
      rw [pricedTrades, List.filter_filter]
      refine List.filter_congr fun t _ => ?_
      cases h1 : t.user_id == u <;> cases h2 : decide (t.trade_date ≤ asOf) <;>
        cases h3 : t.fund_id == f <;> cases h4 : hasSameDatePrice L t <;>
        simp [h1, h2, h3, h4]
    rw [joinedRows]
    rw [hfilters] at hker
    exact ⟨hker.1, hker.2⟩
  refine ⟨key, ?_⟩
  intro pos hpos
  simp only [positionRows, List.mem_filterMap] at hpos
  obtain ⟨g, -, hg⟩ := hpos
  split at hg
  next hq =>
    cases hg
    exact ⟨(key g).1, (key g).2⟩
  next => exact absurd hg (by simp)

/-- Witness for `position_aggregation_drops_unpriced`: a ledger where the
2024-02-01 trade of fund 2 has no same-date reference price; its
uniqueness hypothesis is discharged by computation. -/
theorem position_aggregation_drops_unpriced_witness :
    sumQuantity
        ((joinedRows
            ⟨[⟨"u1", 1, 20000, 20240110⟩, ⟨"u1", 2, 5000, 20240201⟩],
              [⟨1, 100, 20240110⟩, ⟨1, 110, 20240601⟩]⟩
            "u1" 20241231).filter fun r => r.1.fund_id == 2)
      = specTotalQuantity
          ⟨[⟨"u1", 1, 20000, 20240110⟩, ⟨"u1", 2, 5000, 20240201⟩],
            [⟨1, 100, 20240110⟩, ⟨1, 110, 20240601⟩]⟩
          "u1" 20241231 2 :=
  ((position_aggregation_drops_unpriced
    ⟨[⟨"u1", 1, 20000, 20240110⟩, ⟨"u1", 2, 5000, 20240201⟩],
      [⟨1, 100, 20240110⟩, ⟨1, 110, 20240601⟩]⟩
    "u1" 20241231 (by unfold PricesUnique; decide)).1 2).1

theorem lookupYear_updateYear (m : List (Nat × yearlyFundData)) (yi : Nat)
    (v c : ℚ) (y : Nat) :
    lookupYear (updateYear m yi v c) y =
      if y = yi then
        match lookupYear m y with
        | some d => some ⟨d.CurrentValueSum + v, d.BuyAmountSum + c⟩
        | none => some ⟨v, c⟩
      else lookupYear m y := by
  induction m with
  | nil =>
      by_cases hy : y = yi
      · subst hy
        simp [updateYear, lookupYear]
      · have hy' : ¬(yi = y) := fun h => hy h.symm
        simp [updateYear, lookupYear, hy, hy']
  | cons e m ih =>
      obtain ⟨k, d⟩ := e
      by_cases hk : k = yi
      · subst hk
        by_cases hy : k = y
        · subst hy
          simp [updateYear, lookupYear]
        · have hy' : ¬(y = k) := fun h => hy h.symm
          simp [updateYear, lookupYear, hy, hy']
      · by_cases hy : k = y
        · subst hy
          have hk' : ¬(k = yi) := hk
          simp [updateYear, lookupYear, hk']
        · simp [updateYear, lookupYear, hk, hy, ih]

theorem byYearLoop_foldl (lookup : Int → PriceResult) :
    ∀ (rows : List YearPosRow) (m : List (Nat × yearlyFundData)) (y : Nat),
      lookupYear
          (rows.foldl
            (fun m row =>
              match lookup row.fund_id with
              | .ok p =>
                  updateYear m row.trade_year
                    (p * (row.total_quantity : ℚ) / UNIT_PER_PRICE_BASE)
                    row.total_buy_cost
              | .noRows => m
              | .dbError => m) m) y =
        match lookupYear m y with
        | some d =>
            some ⟨d.CurrentValueSum + yearCohortValue lookup rows y,
                  d.BuyAmountSum + yearCohortCost lookup rows y⟩
        | none =>
            if rows.any fun r => r.trade_year == y && (lookup r.fund_id).isHit
            then some ⟨yearCohortValue lookup rows y, yearCohortCost lookup rows y⟩
            else none := by
  intro rows
  induction rows with
  | nil =>
      intro m y
      rw [List.foldl_nil]
      cases hm : lookupYear m y with
      | none => simp [yearCohortValue, yearCohortCost, yearCohort]
      | some d =>
          cases d
          simp [yearCohortValue, yearCohortCost, yearCohort]
  | cons r rs ih =>
      intro m y
      rw [List.foldl_cons]
      cases hr : lookup r.fund_id with
      | ok p =>
          simp only []
          rw [ih, lookupYear_updateYear]
          by_cases hy : y = r.trade_year
          · have hbeq : (r.trade_year == y) = true := by
              rw [beq_iff_eq]
              exact hy.symm
            have hcv : yearCohortValue lookup (r :: rs) y =
                p * (r.total_quantity : ℚ) / UNIT_PER_PRICE_BASE +
                  yearCohortValue lookup rs y := by
              simp [yearCohortValue, yearCohort, List.filter_cons, hbeq, hr,
                PriceResult.isHit, rowValue]
            have hcc : yearCohortCost lookup (r :: rs) y =
                r.total_buy_cost + yearCohortCost lookup rs y := by
              simp [yearCohortCost, yearCohort, List.filter_cons, hbeq, hr,
                PriceResult.isHit, rowCost]
            have hany : (List.any (r :: rs) fun q =>
                q.trade_year == y && (lookup q.fund_id).isHit) = true := by
              simp [List.any_cons, hbeq, hr, PriceResult.isHit]
            rw [hcv, hcc, hany, if_pos hy]
            cases hm : lookupYear m y with
            | some d => simp [hm, add_assoc]
            | none => simp [hm]
          · have hne : (r.trade_year == y) = false := by
              rw [beq_eq_false_iff_ne]
              exact fun h => hy h.symm
            have hcv : yearCohortValue lookup (r :: rs) y =
                yearCohortValue lookup rs y := by
              simp [yearCohortValue, yearCohort, List.filter_cons, hne]
            have hcc : yearCohortCost lookup (r :: rs) y =
                yearCohortCost lookup rs y := by
              simp [yearCohortCost, yearCohort, List.filter_cons, hne]
            have hany : (List.any (r :: rs) fun q =>
                q.trade_year == y && (lookup q.fund_id).isHit) =
                (List.any rs fun q =>
                  q.trade_year == y && (lookup q.fund_id).isHit) := by
              simp [List.any_cons, hne]
            rw [hcv, hcc, hany, if_neg hy]
      | noRows =>
          simp only []
          rw [ih]
          have hmiss : ((r.trade_year == y) && (lookup r.fund_id).isHit) = false := by
            simp [hr, PriceResult.isHit]
          have hcv : yearCohortValue lookup (r :: rs) y =
              yearCohortValue lookup rs y := by
            simp [yearCohortValue, yearCohort, List.filter_cons, hmiss]
          have hcc : yearCohortCost lookup (r :: rs) y =
              yearCohortCost lookup rs y := by
            simp [yearCohortCost, yearCohort, List.filter_cons, hmiss]
          have hany : (List.any (r :: rs) fun q =>
              q.trade_year == y && (lookup q.fund_id).isHit) =
              (List.any rs fun q =>
                q.trade_year == y && (lookup q.fund_id).isHit) := by
            simp [List.any_cons, hmiss]
          rw [hcv, hcc, hany]
      | dbError =>
          simp only []
          rw [ih]
          have hmiss : ((r.trade_year == y) && (lookup r.fund_id).isHit) = false := by
            simp [hr, PriceResult.isHit]
          have hcv : yearCohortValue lookup (r :: rs) y =
              yearCohortValue lookup rs y := by
            simp [yearCohortValue, yearCohort, List.filter_cons, hmiss]
          have hcc : yearCohortCost lookup (r :: rs) y =
              yearCohortCost lookup rs y := by
            simp [yearCohortCost, yearCohort, List.filter_cons, hmiss]
          have hany : (List.any (r :: rs) fun q =>
              q.trade_year == y && (lookup q.fund_id).isHit) =
              (List.any rs fun q =>
                q.trade_year == y && (lookup q.fund_id).isHit) := by
            simp [List.any_cons, hmiss]
          rw [hcv, hcc, hany]

theorem updateYear_keys (m : List (Nat × yearlyFundData)) (yi : Nat) (v c : ℚ) :
    (updateYear m yi v c).map Prod.fst =
      if yi ∈ m.map Prod.fst then m.map Prod.fst else m.map Prod.fst ++ [yi] := by
  induction m with
  | nil => simp [updateYear]
  | cons e m ih =>
      obtain ⟨k, d⟩ := e
      by_cases hk : k = yi
      · subst hk
        simp [updateYear]
      · have hk' : ¬(yi = k) := fun h => hk h.symm
        by_cases hmem : yi ∈ m.map Prod.fst
        · simp [updateYear, hk, hk', hmem, ih]
        · simp [updateYear, hk, hk', hmem, ih]

theorem updateYear_keys_nodup (m : List (Nat × yearlyFundData)) (yi : Nat)
    (v c : ℚ) (h : (m.map Prod.fst).Nodup) :
    ((updateYear m yi v c).map Prod.fst).Nodup := by
  rw [updateYear_keys]
  by_cases hmem : yi ∈ m.map Prod.fst
  · simpa [hmem] using h
  · simp only [hmem, if_false]
    rw [List.nodup_append]
    exact ⟨h, List.nodup_singleton yi, by simpa using hmem⟩

theorem byYearLoop_keys_nodup (lookup : Int → PriceResult) :
    ∀ (rows : List YearPosRow) (m : List (Nat × yearlyFundData)),
      (m.map Prod.fst).Nodup →
      ((rows.foldl
          (fun m row =>
            match lookup row.fund_id with
            | .ok p =>
                updateYear m row.trade_year
                  (p * (row.total_quantity : ℚ) / UNIT_PER_PRICE_BASE)
                  row.total_buy_cost
            | .noRows => m
            | .dbError => m) m).map Prod.fst).Nodup := by
  intro rows
  induction rows with
  | nil => intro m h; exact h
  | cons r rs ih =>
      intro m h
      rw [List.foldl_cons]
      cases hr : lookup r.fund_id
      · exact ih _ (updateYear_keys_nodup m _ _ _ h)
      · exact ih _ h
      · exact ih _ h

theorem lookupYear_eq_some_of_mem :
    ∀ (m : List (Nat × yearlyFundData)), (m.map Prod.fst).Nodup →
      ∀ (y : Nat) (d : yearlyFundData), (y, d) ∈ m → lookupYear m y = some d := by
  intro m
  induction m with
  | nil => intro _ y d h; exact absurd h (List.not_mem_nil _)
  | cons e m ih =>
      obtain ⟨k, e'⟩ := e
      intro hnd y d hm
      rcases List.mem_cons.mp hm with he | hm'
      · cases he
        simp [lookupYear]
      · have hk : ¬(k = y) := by
          intro hky
          subst hky
          have hmem : k ∈ m.map Prod.fst := List.mem_map.mpr ⟨(k, d), hm', rfl⟩
          exact (List.nodup_cons.mp (by simpa using hnd)).1 hmem
        have hnd' : (m.map Prod.fst).Nodup :=
          (List.nodup_cons.mp (by simpa using hnd)).2
        simp [lookupYear, hk, ih hnd' y d hm']

theorem mem_of_lookupYear_eq_some :
    ∀ (m : List (Nat × yearlyFundData)) (y : Nat) (d : yearlyFundData),
      lookupYear m y = some d → (y, d) ∈ m := by
  intro m
  induction m with
  | nil => intro y d h; exact absurd h (by simp [lookupYear])
  | cons e m ih =>
      obtain ⟨k, e'⟩ := e
      intro y d h
      simp only [lookupYear] at h
      split at h
      next hk =>
        cases h
        exact hk ▸ List.mem_cons_self ..
      next => exact List.mem_cons_of_mem _ (ih y d h)

theorem lookupYear_isSome_of_mem :
    ∀ (m : List (Nat × yearlyFundData)) (y : Nat) (d : yearlyFundData),
      (y, d) ∈ m → ∃ d', lookupYear m y = some d' := by
  intro m
  induction m with
  | nil => intro y d h; exact absurd h (List.not_mem_nil _)
  | cons e m ih =>
      obtain ⟨k, e'⟩ := e
      intro y d hm
      by_cases hk : k = y
      · exact ⟨e', by simp [lookupYear, hk]⟩
      · rcases List.mem_cons.mp hm with he | hm'
        · cases he
          exact absurd rfl hk
        · obtain ⟨d', hd'⟩ := ih y d hm'
          exact ⟨d', by simp [lookupYear, hk, hd']⟩

theorem insertDescByYear_perm (a : YearlyAsset) (l : List YearlyAsset) :
    (insertDescByYear a l).Perm (a :: l) := by
  induction l with
  | nil => exact List.Perm.refl _
  | cons b bs ih =>
      rw [insertDescByYear]
      split
      · exact List.Perm.refl _
      · exact (ih.cons b).trans (List.Perm.swap a b bs)

theorem sortDescByYear_perm (l : List YearlyAsset) :
    (sortDescByYear l).Perm l := by
  induction l with
  | nil => exact List.Perm.refl _
  | cons a as ih =>
      rw [sortDescByYear]
      exact (insertDescByYear_perm a (sortDescByYear as)).trans (ih.cons a)

theorem insertDescByYear_sorted (a : YearlyAsset) (l : List YearlyAsset)
    (h : l.Pairwise fun x y => y.year ≤ x.year) :
    (insertDescByYear a l).Pairwise fun x y => y.year ≤ x.year := by
  induction l with
  | nil => simp [insertDescByYear]
  | cons b bs ih =>
      rw [insertDescByYear]
      obtain ⟨hb, hbs⟩ := List.pairwise_cons.mp h
      split
      next hlt =>
        refine List.pairwise_cons.mpr ⟨?_, h⟩
        intro x hx
        rcases List.mem_cons.mp hx with rfl | hx'
        · exact Nat.le_of_lt hlt
        · exact le_trans (hb x hx') (Nat.le_of_lt hlt)
      next hge =>
        refine List.pairwise_cons.mpr ⟨?_, ih hbs⟩
        intro x hx
        have hx2 := (insertDescByYear_perm a bs).mem_iff.mp hx
        rcases List.mem_cons.mp hx2 with rfl | hx'
        · exact Nat.le_of_not_lt hge
        · exact hb x hx'

theorem sortDescByYear_sorted (l : List YearlyAsset) :
    (sortDescByYear l).Pairwise fun x y => y.year ≤ x.year := by
  induction l with
  | nil => simp [sortDescByYear]
  | cons a as ih =>
      rw [sortDescByYear]
      exact insertDescByYear_sorted a _ ih

theorem summaryToAssets_years (m : List (Nat × yearlyFundData)) :
    (summaryToAssets m).map (fun e => e.year) = m.map Prod.fst := by
  simp only [summaryToAssets, List.map_map]
  rfl

theorem filter_key_eq (m : List (Nat × yearlyFundData))
    (hnd : (m.map Prod.fst).Nodup) (y : Nat) :
    m.filter (fun e => e.1 == y) =
      match lookupYear m y with
      | some d => [(y, d)]
      | none => [] := by
  induction m with
  | nil => simp [lookupYear]
  | cons e m ih =>
      obtain ⟨k, d⟩ := e
      rw [List.map_cons] at hnd
      have hsplit := List.nodup_cons.mp hnd
      by_cases hk : k = y
      · subst hk
        have hnil : m.filter (fun e => e.1 == k) = [] := by
          rw [List.filter_eq_nil_iff]
          intro e he
          simp only [beq_iff_eq]
          intro hek
          exact hsplit.1 (List.mem_map.mpr ⟨e, he, hek⟩)
        simp [List.filter_cons, lookupYear, hnil]
      · have hbeq : (k == y) = false := by
          rw [beq_eq_false_iff_ne]
          exact hk
        simp [List.filter_cons, lookupYear, hbeq, hk, ih hsplit.2]

theorem byYearLoop_filter_hits (lookup : Int → PriceResult)
    (rows : List YearPosRow) :
    byYearLoop lookup (rows.filter fun r => (lookup r.fund_id).isHit) =
      byYearLoop lookup rows := by
  suffices h : ∀ m : List (Nat × yearlyFundData),
      (rows.filter fun r => (lookup r.fund_id).isHit).foldl
        (fun m row =>
          match lookup row.fund_id with
          | .ok p =>
              updateYear m row.trade_year
                (p * (row.total_quantity : ℚ) / UNIT_PER_PRICE_BASE)
                row.total_buy_cost
          | .noRows => m
          | .dbError => m) m =
      rows.foldl
        (fun m row =>
          match lookup row.fund_id with
          | .ok p =>
              updateYear m row.trade_year
                (p * (row.total_quantity : ℚ) / UNIT_PER_PRICE_BASE)
                row.total_buy_cost
          | .noRows => m
          | .dbError => m) m by
    exact h []
  induction rows with
  | nil => intro m; rfl
  | cons r rs ih =>
      intro m
      rw [List.filter_cons]
      cases hr : lookup r.fund_id with
      | ok p =>
          rw [if_pos (show (PriceResult.ok p).isHit = true from rfl),
            List.foldl_cons, List.foldl_cons]
          exact ih _
      | noRows =>
          rw [if_neg (show ¬(PriceResult.noRows.isHit = true) from by
            simp [PriceResult.isHit]), List.foldl_cons, hr]
          exact ih m
      | dbError =>
          rw [if_neg (show ¬(PriceResult.dbError.isHit = true) from by
            simp [PriceResult.isHit]), List.foldl_cons, hr]
          exact ih m

theorem byYearAssets_sorted_strict (lookup : Int → PriceResult)
    (rows : List YearPosRow) :
    (byYearAssets rows lookup).Pairwise fun a b => b.year < a.year := by
  have h1 := sortDescByYear_sorted (summaryToAssets (byYearLoop lookup rows))
  have hknd : ((byYearLoop lookup rows).map Prod.fst).Nodup :=
    byYearLoop_keys_nodup lookup rows [] (by simp)
  have hyears :
      ((summaryToAssets (byYearLoop lookup rows)).map fun e => e.year).Nodup := by
    rw [summaryToAssets_years]
    exact hknd
  have hperm :=
    (sortDescByYear_perm (summaryToAssets (byYearLoop lookup rows))).map
      fun e => e.year
  have houtnd :
      ((sortDescByYear (summaryToAssets (byYearLoop lookup rows))).map
        fun e => e.year).Nodup := hperm.nodup_iff.mpr hyears
  have hne := List.pairwise_map.mp houtnd
  exact (h1.and hne).imp fun hab =>
    lt_of_le_of_ne hab.1 fun h => hab.2 h.symm

theorem byYearAssets_filter_year (lookup : Int → PriceResult)
    (rows : List YearPosRow) (y : Nat) :
    (byYearAssets rows lookup).filter (fun e => e.year == y) =
      if rows.any fun r => r.trade_year == y && (lookup r.fund_id).isHit
      then [⟨y, (yearCohortValue lookup rows y).floor,
             (yearCohortValue lookup rows y - yearCohortCost lookup rows y).floor⟩]
      else [] := by
  have hknd : ((byYearLoop lookup rows).map Prod.fst).Nodup :=
    byYearLoop_keys_nodup lookup rows [] (by simp)
  have hlook : lookupYear (byYearLoop lookup rows) y =
      if rows.any fun r => r.trade_year == y && (lookup r.fund_id).isHit
      then some ⟨yearCohortValue lookup rows y, yearCohortCost lookup rows y⟩
      else none := by
    have h := byYearLoop_foldl lookup rows [] y
    simpa [byYearLoop, lookupYear] using h
  have hfilter : (byYearLoop lookup rows).filter (fun e => e.1 == y) =
      if rows.any fun r => r.trade_year == y && (lookup r.fund_id).isHit
      then [(y, (⟨yearCohortValue lookup rows y, yearCohortCost lookup rows y⟩ :
              yearlyFundData))]
      else [] := by
    rw [filter_key_eq _ hknd y, hlook]
    by_cases hc : rows.any fun r => r.trade_year == y && (lookup r.fund_id).isHit
    · simp [hc]
    · simp [hc]
  have hmap : (summaryToAssets (byYearLoop lookup rows)).filter
        (fun e => e.year == y) =
      if rows.any fun r => r.trade_year == y && (lookup r.fund_id).isHit
      then [⟨y, (yearCohortValue lookup rows y).floor,
             (yearCohortValue lookup rows y - yearCohortCost lookup rows y).floor⟩]
      else [] := by
    rw [summaryToAssets, List.filter_map,
      show ((fun (e : YearlyAsset) => e.year == y) ∘ fun e =>
          (⟨e.1, (e.2.CurrentValueSum).floor,
            (e.2.CurrentValueSum - e.2.BuyAmountSum).floor⟩ : YearlyAsset)) =
        fun (e : Nat × yearlyFundData) => e.1 == y from rfl,
      hfilter]
    by_cases hc : rows.any fun r => r.trade_year == y && (lookup r.fund_id).isHit
    · simp [hc]
    · simp [hc]
  have hperm : ((byYearAssets rows lookup).filter fun e => e.year == y).Perm
      ((summaryToAssets (byYearLoop lookup rows)).filter fun e => e.year == y) :=
    List.Perm.filter _ (sortDescByYear_perm _)
  rw [hmap] at hperm
  by_cases hc : rows.any fun r => r.trade_year == y && (lookup r.fund_id).isHit
  · rw [if_pos hc] at hperm ⊢
    exact List.perm_singleton.mp hperm
  · rw [if_neg hc] at hperm ⊢
    exact List.perm_nil.mp hperm

theorem byYearAssets_any_year (lookup : Int → PriceResult)
    (rows : List YearPosRow) (y : Nat) :
    ((byYearAssets rows lookup).any fun e => e.year == y) =
      rows.any fun r => r.trade_year == y && (lookup r.fund_id).isHit := by
  have hf := byYearAssets_filter_year lookup rows y
  by_cases hc : rows.any fun r => r.trade_year == y && (lookup r.fund_id).isHit
  · rw [hc]
    rw [if_pos hc] at hf
    have hx : (⟨y, (yearCohortValue lookup rows y).floor,
        (yearCohortValue lookup rows y - yearCohortCost lookup rows y).floor⟩ :
          YearlyAsset) ∈
        (byYearAssets rows lookup).filter fun e => e.year == y := by
      rw [hf]
      exact List.mem_cons_self ..
    have hm := List.mem_filter.mp hx
    exact List.any_eq_true.mpr ⟨_, hm.1, hm.2⟩
  · rw [if_neg hc] at hf
    have hnone : ((byYearAssets rows lookup).any fun e => e.year == y) = false := by
      rw [List.any_eq_false]
      intro x hx hpx
      have hmem : x ∈ (byYearAssets rows lookup).filter fun e => e.year == y :=
        List.mem_filter.mpr ⟨hx, hpx⟩
      rw [hf] at hmem
      exact absurd hmem (List.not_mem_nil x)
    rw [hnone]
    exact (Bool.eq_false_iff.mpr hc).symm

/-- **C6**: in the `/{user_id}/assets/byYear` response the year entries
are sorted strictly descending by year, and each year's figures come only
from that year's purchase cohort: for every year `y` the response holds
at most one entry for `y`, present exactly when some `(y, fund)` group's
current price resolves, and its `current_value` / `current_pl` are the
floors of that year's cohort sums (each `(year, fund)` group valued at
today's single current price of its fund, so a fund bought in two years
contributes through two independent groups). -/
theorem byYear_sorted_and_cohort :
    ∀ (L : Ledger) (u : String) (today : Date),
      (getAssetsByYear L u today).Pairwise (fun a b => b.year < a.year)
      ∧ ∀ y : Nat,
          (getAssetsByYear L u today).filter (fun e => e.year == y) =
            if (yearPositionRows L u today).any fun r =>
                r.trade_year == y && (ledgerLookup L today r.fund_id).isHit
            then [⟨y,
              (yearCohortValue (ledgerLookup L today)
                (yearPositionRows L u today) y).floor,
              (yearCohortValue (ledgerLookup L today)
                  (yearPositionRows L u today) y -
                yearCohortCost (ledgerLookup L today)
                  (yearPositionRows L u today) y).floor⟩]
            else [] := by
  intro L u today
  exact ⟨byYearAssets_sorted_strict (ledgerLookup L today)
      (yearPositionRows L u today),
    fun y => byYearAssets_filter_year (ledgerLookup L today)
      (yearPositionRows L u today) y⟩

/-- **C10**: in year-bucketed valuation a `(year, fund)` group whose fund
has no reference price dated at-or-before today contributes neither value
nor buy cost (the response equals the one computed over only the groups
whose price resolves), the request still succeeds, and a year is present
in the `assets` list exactly when at least one of its groups has a
resolving price — a year all of whose groups are skipped is absent, not
reported with zero values. -/
theorem byYear_skip_unpriced_groups :
    ∀ (L : Ledger) (u : String) (today : Date),
      getAssetsByYear L u today =
        byYearAssets
          ((yearPositionRows L u today).filter fun r =>
            (ledgerLookup L today r.fund_id).isHit)
          (ledgerLookup L today)
      ∧ getAssetsByYearHandler (.ok (yearPositionRows L u today))
          (ledgerLookup L today) = .ok (getAssetsByYear L u today)
      ∧ ∀ y : Nat,
          ((getAssetsByYear L u today).any fun e => e.year == y) =
            (yearPositionRows L u today).any fun r =>
              r.trade_year == y && (ledgerLookup L today r.fund_id).isHit := by
  intro L u today
  refine ⟨?_, rfl, fun y => byYearAssets_any_year (ledgerLookup L today)
    (yearPositionRows L u today) y⟩
  rw [getAssetsByYear, byYearAssets, byYearAssets, byYearLoop_filter_hits]
